import Mathlib

/-!
# Verification of the background-compilation coordinator
  (src/src/optimizing-compiler-thread.cc)

Shallow embedding of V8's `OptimizingCompilerThread`: the worker loop
(`Run`/`CompileNext`), the install coordinator (`InstallOptimizedFunctions`),
the enqueue path (`QueueForOptimization`) and the shutdown sequencer
(`Stop`), together with proofs of the coordination properties claimed by
the specification.

Modelling conventions:
* The two `Unbound Queue`s become Lean lists (front = head, enqueue at the
  tail), matching the FIFO discipline of the source.
* The two semaphores (`input_queue_semaphore_`, `stop_semaphore_`) become
  counting-signal naturals; `Wait` on a zero count blocks, which the model
  reports as the error value `RunErr.wouldBlock`.
* The atomic counter `queue_length_` becomes an `Int` (the source applies
  `Barrier_AtomicIncrement` with +1 and -1).
* The closure's recompilation marker (the builtin installed in the
  function record) becomes `FuncCode`; `IsInRecompileQueue`,
  `MarkForInstallingRecompiledCode` and `Compiler::InstallOptimizedCode`
  act on it exactly as in the source.
* `ASSERT`s are modelled with their checked (debug-build) semantics: a
  failing assertion is fatal, reported as `RunErr.assertFailed`.
* The opaque `OptimizeGraph` pipeline is abstracted by a predetermined
  per-job status `graph_status` carried by the job.
* Timing/tracing (`FLAG_trace_parallel_recompilation`, `time_spent_*`),
  the `Heap::RelocationLock`, `OS::Sleep` and `Logger` instrumentation do
  not touch coordinator state and are not modelled.
* Two ghost history fields, `compiled_log` and `installed_log`, record the
  order in which jobs finish `CompileNext` and
  `Compiler::InstallOptimizedCode`; the source observes the latter count
  in the local `functions_installed`.  They are write-only
  instrumentation and never influence control flow.
-/

namespace V8

/-- Outcome of the opaque `OptimizeGraph` step (`OptimizingCompiler::Status`). -/
inductive CompileStatus where
  | FAILED
  | BAILED_OUT
  | SUCCEEDED
deriving DecidableEq, Repr

/-- The code slot of a function record (`JSFunction` closure): either the
`InRecompileQueue` marker builtin ("pending install"), the
`InstallRecompiledCode` marker written by `MarkForInstallingRecompiledCode`
("ready"), or the actual optimized code written at install time. -/
inductive FuncCode where
  | inRecompileQueue
  | markedForInstall
  | optimizedCode
deriving DecidableEq, Repr

/-- A queued compilation job (`OptimizingCompiler*`): the identity of the
closure it targets, and the predetermined outcome of its opaque
`OptimizeGraph` call. -/
structure OptimizingCompiler where
  fid : Nat
  graph_status : CompileStatus
deriving DecidableEq, Repr

/-- `JSFunction::IsInRecompileQueue` on a function record's code slot. -/
def IsInRecompileQueue (c : FuncCode) : Bool :=
  c = FuncCode.inRecompileQueue

/-- The mutable state shared by the execution thread and the compiler
thread: the two queues, the atomic length counter, the two semaphores
(as counting signals), the shutdown flag, every function record's code
slot, and two ghost logs of completed compiles / installs. -/
structure OCTState where
  input_queue : List OptimizingCompiler
  output_queue : List OptimizingCompiler
  queue_length : Int
  input_queue_semaphore : Nat
  stop_semaphore : Nat
  stop_thread : Bool
  funcs : Nat → FuncCode
  compiled_log : List Nat
  installed_log : List Nat

/-- A blocked primitive (`Wait` on an empty semaphore, `Dequeue` on an
empty queue) or a failing debug `ASSERT`. -/
inductive RunErr where
  | wouldBlock
  | assertFailed
deriving DecidableEq, Repr

/-- `JSFunction::MarkForInstallingRecompiledCode` on function `fid`:
flips the record's marker from `InRecompileQueue` to
`InstallRecompiledCode` (the "ready" state). -/
def MarkForInstallingRecompiledCode (fid : Nat) (s : OCTState) : OCTState :=
  { s with funcs := fun f => if f = fid then FuncCode.markedForInstall else s.funcs f }

/-- `output_queue_.Enqueue(optimizing_compiler)` plus the ghost record
that this job's compile step completed. -/
def enqueueOutput (oc : OptimizingCompiler) (s : OCTState) : OCTState :=
  { s with output_queue := s.output_queue ++ [oc]
           compiled_log := s.compiled_log ++ [oc.fid] }

/-- The state right after `input_queue_.Dequeue` and the atomic decrement
of `queue_length_`, given that `oc` was at the front. -/
def afterDequeue (rest : List OptimizingCompiler) (s : OCTState) : OCTState :=
  { s with input_queue := rest, queue_length := s.queue_length - 1 }

/-- `OptimizingCompilerThread::CompileNext`, step by step in source order:
take the relocation lock (no coordinator state), dequeue one job from the
input queue (blocking), decrement `queue_length_`, `ASSERT` the closure is
still in the recompile queue, run the opaque `OptimizeGraph` and `ASSERT`
it did not fail, enqueue the job into the output queue, `ASSERT` the
closure is still unmarked, and only then mark it for installing. -/
def CompileNext (s : OCTState) : Except RunErr OCTState :=
  match s.input_queue with
  | [] => Except.error RunErr.wouldBlock
  | oc :: rest =>
    let s1 := afterDequeue rest s
    if !IsInRecompileQueue (s1.funcs oc.fid) then Except.error RunErr.assertFailed
    else
      let status := oc.graph_status
      if status = CompileStatus.FAILED then Except.error RunErr.assertFailed
      else
        let s2 := enqueueOutput oc s1
        if !IsInRecompileQueue (s2.funcs oc.fid) then Except.error RunErr.assertFailed
        else Except.ok (MarkForInstallingRecompiledCode oc.fid s2)

/-- The states `CompileNext` passes through after each of its two writes
to shared coordinator state, in program order: first the publish into the
output queue, then the flip of the function record's marker.  (The
dequeue/decrement state is included in front for completeness.) -/
def compileNextStates (oc : OptimizingCompiler) (rest : List OptimizingCompiler)
    (s : OCTState) : List OCTState :=
  [afterDequeue rest s,
   enqueueOutput oc (afterDequeue rest s),
   MarkForInstallingRecompiledCode oc.fid (enqueueOutput oc (afterDequeue rest s))]

/-- The loop body of `InstallOptimizedFunctions`, recursing on the output
queue: peek the front job; if its closure is still in the recompile queue,
stop; otherwise dequeue it and run `Compiler::InstallOptimizedCode`
(which replaces the marker by the optimized code), logging the install. -/
def installDrain : List OptimizingCompiler → (Nat → FuncCode) → List Nat →
    List OptimizingCompiler × (Nat → FuncCode) × List Nat
  | [], funcs, log => ([], funcs, log)
  | oc :: rest, funcs, log =>
    if IsInRecompileQueue (funcs oc.fid) then (oc :: rest, funcs, log)
    else installDrain rest
      (fun f => if f = oc.fid then FuncCode.optimizedCode else funcs f)
      (log ++ [oc.fid])

/-- `OptimizingCompilerThread::InstallOptimizedFunctions`: drain the
eligible prefix of the output queue, installing each dequeued job's code. -/
def InstallOptimizedFunctions (s : OCTState) : OCTState :=
  let r := installDrain s.output_queue s.funcs s.installed_log
  { s with output_queue := r.1, funcs := r.2.1, installed_log := r.2.2 }

/-- `OptimizingCompilerThread::QueueForOptimization`: atomically increment
`queue_length_`, enqueue the job, and signal the input-queue semaphore. -/
def QueueForOptimization (oc : OptimizingCompiler) (s : OCTState) : OCTState :=
  { s with queue_length := s.queue_length + 1
           input_queue := s.input_queue ++ [oc]
           input_queue_semaphore := s.input_queue_semaphore + 1 }

/-- One iteration of the worker loop in `OptimizingCompilerThread::Run`:
wait on the input-queue semaphore (blocking when its count is zero),
optionally sleep for the diagnostic delay (no state effect), then check
`stop_thread_` with acquire semantics: if set, signal the stop semaphore
and leave the loop (the returned flag is `true`); otherwise run
`CompileNext` and continue. -/
def runIteration (s : OCTState) : Except RunErr (OCTState × Bool) :=
  match s.input_queue_semaphore with
  | 0 => Except.error RunErr.wouldBlock
  | n + 1 =>
    let s1 := { s with input_queue_semaphore := n }
    if s1.stop_thread then
      Except.ok ({ s1 with stop_semaphore := s1.stop_semaphore + 1 }, true)
    else
      match CompileNext s1 with
      | Except.error e => Except.error e
      | Except.ok s2 => Except.ok (s2, false)

/-- The synchronous drain fallback in `Stop`: while `queue_length_ > 0`,
run `CompileNext` then `InstallOptimizedFunctions` on the execution
thread.  The source's `while` loop is embedded with explicit fuel;
exhausted fuel with the guard still true reports a blocked state. -/
def stopDrainLoop : Nat → OCTState → Except RunErr OCTState
  | 0, s => if s.queue_length > 0 then Except.error RunErr.wouldBlock else Except.ok s
  | fuel + 1, s =>
    if s.queue_length > 0 then
      match CompileNext s with
      | Except.error e => Except.error e
      | Except.ok s1 => stopDrainLoop fuel (InstallOptimizedFunctions s1)
    else Except.ok s

/-- `OptimizingCompilerThread::Stop`, in the canonical interleaving where
the worker thread is parked on the input-queue semaphore when `Stop` is
called: store `stop_thread_` with release semantics, signal the input
semaphore once, and block on the stop semaphore — which returns exactly
when the worker's next iteration observes the flag and acknowledges, so
that iteration is run in place of the `stop_semaphore_->Wait()`.  If the
diagnostic delay flag is nonzero, finish processing synchronously:
`InstallOptimizedFunctions`, then the drain loop. -/
def Stop (parallel_recompilation_delay : Nat) (s : OCTState) :
    Except RunErr OCTState :=
  let s1 := { s with stop_thread := true
                     input_queue_semaphore := s.input_queue_semaphore + 1 }
  match runIteration s1 with
  | Except.error e => Except.error e
  | Except.ok (s2, _) =>
    match s2.stop_semaphore with
    | 0 => Except.error RunErr.wouldBlock
    | m + 1 =>
      let s3 := { s2 with stop_semaphore := m }
      if parallel_recompilation_delay ≠ 0 then
        let s4 := InstallOptimizedFunctions s3
        stopDrainLoop s4.input_queue.length s4
      else Except.ok s3

/-! ## Helper lemmas about the install coordinator -/

/-- The eligibility test `InstallOptimizedFunctions` applies to a peeked
job under a given snapshot of the function records. -/
def eligible (funcs : Nat → FuncCode) (oc : OptimizingCompiler) : Bool :=
  !IsInRecompileQueue (funcs oc.fid)

lemma installDrain_spec (q : List OptimizingCompiler) : ∀ (funcs : Nat → FuncCode) (log : List Nat),
    (installDrain q funcs log).1 = q.dropWhile (eligible funcs)
    ∧ (installDrain q funcs log).2.2 = log ++ (q.takeWhile (eligible funcs)).map (fun oc => oc.fid)
    ∧ ∀ f, (installDrain q funcs log).2.1 f =
        if f ∈ (q.takeWhile (eligible funcs)).map (fun oc => oc.fid) then FuncCode.optimizedCode
        else funcs f := by
  induction q with
  | nil => intro funcs log; simp [installDrain]
  | cons oc rest ih =>
    intro funcs log
    by_cases h : IsInRecompileQueue (funcs oc.fid)
    · have hp : eligible funcs oc = false := by simp [eligible, h]
      simp [installDrain, h, List.takeWhile_cons, List.dropWhile_cons, hp]
    · have hp : eligible funcs oc = true := by simp [eligible, h]
      have hfuncs : (fun f => if f = oc.fid then FuncCode.optimizedCode else funcs f) = (fun f => if f = oc.fid then FuncCode.optimizedCode else funcs f) := rfl
      have hpred : eligible (fun f => if f = oc.fid then FuncCode.optimizedCode else funcs f) = eligible funcs := by
        funext oc'
        by_cases hf : oc'.fid = oc.fid
        · simp [eligible, hf, IsInRecompileQueue] at h ⊢
          simp [h]
        · simp [eligible, hf]
      obtain ⟨ih1, ih2, ih3⟩ := ih (fun f => if f = oc.fid then FuncCode.optimizedCode else funcs f) (log ++ [oc.fid])
      rw [hpred] at ih1 ih2 ih3
      refine ⟨?_, ?_, ?_⟩
      · simp only [installDrain, h, if_neg, Bool.false_eq_true, not_false_eq_true, ite_false]
        rw [ih1, List.dropWhile_cons, hp]
        simp
      · simp only [installDrain, h, Bool.false_eq_true, not_false_eq_true, ite_false]
        rw [ih2, List.takeWhile_cons, hp]
        simp
      · intro f
        simp only [installDrain, h, Bool.false_eq_true, not_false_eq_true, ite_false]
        rw [ih3 f, List.takeWhile_cons, hp]
        simp only [if_true, List.map_cons, List.mem_cons]
        by_cases hmem : f ∈ (rest.takeWhile (eligible funcs)).map (fun oc => oc.fid)
        · simp [hmem]
        · by_cases hf : f = oc.fid <;> simp [hmem, hf]

lemma mem_dropWhile_of_not_elig {oc : OptimizingCompiler} {q : List OptimizingCompiler}
    {funcs : Nat → FuncCode} (hmem : oc ∈ q) (h : eligible funcs oc = false) :
    oc ∈ q.dropWhile (eligible funcs) := by
  have hsplit := List.takeWhile_append_dropWhile (p := eligible funcs) (l := q)
  rw [← hsplit] at hmem
  rcases List.mem_append.mp hmem with htake | hdrop
  · have := List.mem_takeWhile_imp htake
    rw [h] at this
    exact absurd this (by simp)
  · exact hdrop

lemma install_empty {s : OCTState} (h : s.output_queue = []) :
    InstallOptimizedFunctions s = s := by
  unfold InstallOptimizedFunctions
  rw [h]
  simp only [installDrain]
  rw [← h]

lemma install_front_pending {s : OCTState} {oc : OptimizingCompiler}
    {rest : List OptimizingCompiler} (h : s.output_queue = oc :: rest)
    (hpend : IsInRecompileQueue (s.funcs oc.fid) = true) :
    InstallOptimizedFunctions s = s := by
  unfold InstallOptimizedFunctions
  rw [h]
  simp only [installDrain, hpend, if_true]
  rw [← h]

/-! ## Claim theorems about the install coordinator -/

/-- C2: `InstallOptimizedFunctions` drains exactly the eligible prefix of
the output queue: the remaining queue is the original queue with its
longest eligible prefix removed (so draining stops at the first job whose
record still reads pending, without dequeuing or skipping it); the jobs
installed by the call are exactly that prefix, in order; and a job whose
record is still pending — published but not yet eligible — is never
removed from the output queue. -/
theorem install_drains_exactly_eligible_prefix (s : OCTState) :
    (InstallOptimizedFunctions s).output_queue = s.output_queue.dropWhile (eligible s.funcs)
    ∧ (InstallOptimizedFunctions s).installed_log
        = s.installed_log ++ (s.output_queue.takeWhile (eligible s.funcs)).map (fun oc => oc.fid)
    ∧ (∀ oc ∈ s.output_queue, IsInRecompileQueue (s.funcs oc.fid) = true →
        oc ∈ (InstallOptimizedFunctions s).output_queue) := by
  obtain ⟨h1, h2, _⟩ := installDrain_spec s.output_queue s.funcs s.installed_log
  refine ⟨h1, h2, ?_⟩
  intro oc hmem hpend
  show oc ∈ (InstallOptimizedFunctions s).output_queue
  have : (InstallOptimizedFunctions s).output_queue = s.output_queue.dropWhile (eligible s.funcs) := h1
  rw [this]
  exact mem_dropWhile_of_not_elig hmem (by simp [eligible, hpend])

lemma install_output (s : OCTState) :
    (InstallOptimizedFunctions s).output_queue = s.output_queue.dropWhile (eligible s.funcs) :=
  (installDrain_spec s.output_queue s.funcs s.installed_log).1

lemma install_log (s : OCTState) :
    (InstallOptimizedFunctions s).installed_log
      = s.installed_log ++ (s.output_queue.takeWhile (eligible s.funcs)).map (fun oc => oc.fid) :=
  (installDrain_spec s.output_queue s.funcs s.installed_log).2.1

lemma install_funcs (s : OCTState) (f : Nat) :
    (InstallOptimizedFunctions s).funcs f
      = if f ∈ (s.output_queue.takeWhile (eligible s.funcs)).map (fun oc => oc.fid)
        then FuncCode.optimizedCode else s.funcs f :=
  (installDrain_spec s.output_queue s.funcs s.installed_log).2.2 f

lemma install_frame (s : OCTState) :
    (InstallOptimizedFunctions s).input_queue = s.input_queue
    ∧ (InstallOptimizedFunctions s).queue_length = s.queue_length
    ∧ (InstallOptimizedFunctions s).input_queue_semaphore = s.input_queue_semaphore
    ∧ (InstallOptimizedFunctions s).stop_semaphore = s.stop_semaphore
    ∧ (InstallOptimizedFunctions s).stop_thread = s.stop_thread
    ∧ (InstallOptimizedFunctions s).compiled_log = s.compiled_log :=
  ⟨rfl, rfl, rfl, rfl, rfl, rfl⟩

/-- A concrete coordinator state for witnesses: two published jobs, the
front one (function 1) still pending, the one behind it (function 2)
already eligible — the §8 front-blocking scenario. -/
def frontBlockedState : OCTState :=
  { input_queue := []
    output_queue := [⟨1, CompileStatus.SUCCEEDED⟩, ⟨2, CompileStatus.SUCCEEDED⟩]
    queue_length := 0
    input_queue_semaphore := 0
    stop_semaphore := 0
    stop_thread := false
    funcs := fun f => if f = 2 then FuncCode.markedForInstall else FuncCode.inRecompileQueue
    compiled_log := [1, 2]
    installed_log := [] }

/-- Witness for C2 at a concrete state: front job pending, second job
eligible; the call removes nothing and installs nothing. -/
theorem install_drains_exactly_eligible_prefix_witness :
    (InstallOptimizedFunctions frontBlockedState).output_queue
      = frontBlockedState.output_queue.dropWhile (eligible frontBlockedState.funcs)
    ∧ (InstallOptimizedFunctions frontBlockedState).installed_log
        = frontBlockedState.installed_log
          ++ (frontBlockedState.output_queue.takeWhile (eligible frontBlockedState.funcs)).map (fun oc => oc.fid)
    ∧ (∀ oc ∈ frontBlockedState.output_queue,
        IsInRecompileQueue (frontBlockedState.funcs oc.fid) = true →
        oc ∈ (InstallOptimizedFunctions frontBlockedState).output_queue) :=
  install_drains_exactly_eligible_prefix frontBlockedState

/-- The empty coordinator state: both queues empty, counter and semaphores
at zero, shutdown flag clear, every function record still carrying the
`InRecompileQueue` marker (the §6 precondition: a function is marked
queued-for-optimization before any job for it is enqueued), empty logs. -/
def initialState : OCTState :=
  { input_queue := []
    output_queue := []
    queue_length := 0
    input_queue_semaphore := 0
    stop_semaphore := 0
    stop_thread := false
    funcs := fun _ => FuncCode.inRecompileQueue
    compiled_log := []
    installed_log := [] }

/-- C9: `InstallOptimizedFunctions` on an empty output queue is a no-op
returning the state unchanged — both queues, the counter, the semaphores,
every function record and the logs are exactly as before; likewise when
the front item's record still reads pending, nothing changes after that
first check. -/
theorem install_noop_empty_or_pending_front (s : OCTState) :
    (s.output_queue = [] → InstallOptimizedFunctions s = s)
    ∧ (∀ oc rest, s.output_queue = oc :: rest →
        IsInRecompileQueue (s.funcs oc.fid) = true → InstallOptimizedFunctions s = s) := by
  refine ⟨fun h => install_empty h, fun oc rest h hpend => install_front_pending h hpend⟩

/-- Witness for C9: the empty initial state and the front-blocked state
are both left untouched. -/
theorem install_noop_empty_or_pending_front_witness :
    (initialState.output_queue = [] ∧ InstallOptimizedFunctions initialState = initialState)
    ∧ (frontBlockedState.output_queue
        = (⟨1, CompileStatus.SUCCEEDED⟩ : OptimizingCompiler) :: [⟨2, CompileStatus.SUCCEEDED⟩]
      ∧ IsInRecompileQueue (frontBlockedState.funcs (1 : Nat)) = true
      ∧ InstallOptimizedFunctions frontBlockedState = frontBlockedState) :=
  ⟨⟨rfl, (install_noop_empty_or_pending_front initialState).1 rfl⟩,
   ⟨rfl, rfl,
    (install_noop_empty_or_pending_front frontBlockedState).2
      ⟨1, CompileStatus.SUCCEEDED⟩ [⟨2, CompileStatus.SUCCEEDED⟩] rfl rfl⟩⟩

/-- C10: a single call to `InstallOptimizedFunctions` performs exactly as
many installations as the length of the eligible prefix, so the installs
plus the remaining queue account for the whole output queue at entry, and
the call never installs more items than the output queue held at entry:
the loop terminates after at most `s.output_queue.length` dequeues.
(Termination itself is intrinsic: `installDrain` is structural recursion
on the output queue, each iteration dequeuing the front or exiting.) -/
theorem install_terminates_bounded (s : OCTState) :
    (InstallOptimizedFunctions s).output_queue.length
        + (s.output_queue.takeWhile (eligible s.funcs)).length
      = s.output_queue.length
    ∧ (InstallOptimizedFunctions s).installed_log.length
        ≤ s.installed_log.length + s.output_queue.length := by
  have hsplit := List.takeWhile_append_dropWhile (p := eligible s.funcs) (l := s.output_queue)
  have hlen : (s.output_queue.takeWhile (eligible s.funcs)).length
      + (s.output_queue.dropWhile (eligible s.funcs)).length = s.output_queue.length := by
    rw [← List.length_append, hsplit]
  constructor
  · rw [install_output s]
    omega
  · rw [install_log s]
    simp only [List.length_append, List.length_map]
    omega

/-- Witness for C10 at the front-blocked state. -/
theorem install_terminates_bounded_witness :
    (InstallOptimizedFunctions frontBlockedState).output_queue.length
        + (frontBlockedState.output_queue.takeWhile (eligible frontBlockedState.funcs)).length
      = frontBlockedState.output_queue.length
    ∧ (InstallOptimizedFunctions frontBlockedState).installed_log.length
        ≤ frontBlockedState.installed_log.length + frontBlockedState.output_queue.length :=
  install_terminates_bounded frontBlockedState

/-! ## Claim theorems about the worker's compile step -/

/-- C1: in every successful execution of `CompileNext`, the completed job
is enqueued into the output queue strictly before the function record's
marker is flipped by `MarkForInstallingRecompiledCode`: the final state is
the flip applied to an intermediate state in which the job is already in
the output queue while its record still reads pending, and at every
intermediate state of the step where the record reads ready the job is
already in the output queue — the flip never precedes the enqueue. -/
theorem compileNext_publishes_before_flip (s : OCTState) (oc : OptimizingCompiler)
    (rest : List OptimizingCompiler)
    (hq : s.input_queue = oc :: rest)
    (hpend : s.funcs oc.fid = FuncCode.inRecompileQueue)
    (hok : oc.graph_status ≠ CompileStatus.FAILED) :
    CompileNext s
      = Except.ok (MarkForInstallingRecompiledCode oc.fid (enqueueOutput oc (afterDequeue rest s)))
    ∧ oc ∈ (enqueueOutput oc (afterDequeue rest s)).output_queue
    ∧ IsInRecompileQueue ((enqueueOutput oc (afterDequeue rest s)).funcs oc.fid) = true
    ∧ (∀ t ∈ compileNextStates oc rest s,
        IsInRecompileQueue (t.funcs oc.fid) = false → oc ∈ t.output_queue) := by
  have hfuncs1 : (afterDequeue rest s).funcs = s.funcs := rfl
  have hfuncs2 : (enqueueOutput oc (afterDequeue rest s)).funcs = s.funcs := rfl
  have hguard : IsInRecompileQueue (s.funcs oc.fid) = true := by
    simp [IsInRecompileQueue, hpend]
  refine ⟨?_, ?_, ?_, ?_⟩
  · unfold CompileNext
    rw [hq]
    simp only [hfuncs1, hfuncs2, hguard, Bool.not_true, Bool.false_eq_true, if_neg,
      not_false_eq_true, ite_false]
    rw [if_neg hok]
  · simp [enqueueOutput]
  · rw [hfuncs2]
    exact hguard
  · intro t ht hready
    simp only [compileNextStates, List.mem_cons, List.not_mem_nil, or_false] at ht
    rcases ht with h1 | h2 | h3
    · rw [h1, hfuncs1, hguard] at hready
      exact absurd hready (by simp)
    · rw [h2]
      simp [enqueueOutput]
    · rw [h3]
      simp [MarkForInstallingRecompiledCode, enqueueOutput]

/-- A concrete state with one vetted job for function 7 queued. -/
def oneJobState : OCTState :=
  { initialState with
      input_queue := [⟨7, CompileStatus.SUCCEEDED⟩]
      queue_length := 1
      input_queue_semaphore := 1 }

/-- Witness for C1 at a concrete one-job state. -/
theorem compileNext_publishes_before_flip_witness :
    oneJobState.input_queue = (⟨7, CompileStatus.SUCCEEDED⟩ : OptimizingCompiler) :: []
    ∧ oneJobState.funcs 7 = FuncCode.inRecompileQueue
    ∧ (⟨7, CompileStatus.SUCCEEDED⟩ : OptimizingCompiler).graph_status ≠ CompileStatus.FAILED
    ∧ (CompileNext oneJobState
        = Except.ok (MarkForInstallingRecompiledCode 7
            (enqueueOutput ⟨7, CompileStatus.SUCCEEDED⟩ (afterDequeue [] oneJobState)))
      ∧ (⟨7, CompileStatus.SUCCEEDED⟩ : OptimizingCompiler)
          ∈ (enqueueOutput ⟨7, CompileStatus.SUCCEEDED⟩ (afterDequeue [] oneJobState)).output_queue
      ∧ IsInRecompileQueue
          ((enqueueOutput ⟨7, CompileStatus.SUCCEEDED⟩ (afterDequeue [] oneJobState)).funcs 7) = true
      ∧ (∀ t ∈ compileNextStates ⟨7, CompileStatus.SUCCEEDED⟩ [] oneJobState,
          IsInRecompileQueue (t.funcs 7) = false
            → (⟨7, CompileStatus.SUCCEEDED⟩ : OptimizingCompiler) ∈ t.output_queue)) :=
  ⟨rfl, rfl, by decide,
   compileNext_publishes_before_flip oneJobState ⟨7, CompileStatus.SUCCEEDED⟩ [] rfl rfl (by decide)⟩

/-- C6: when the opaque `OptimizeGraph` step reports `FAILED` inside
`CompileNext`, the debug assertion makes the step fatal: the call aborts
with an assertion failure, returns no successor state at all — so the job
is neither published, nor retried, nor silently carried on with. -/
theorem compileNext_failed_status_fatal (s : OCTState) (oc : OptimizingCompiler)
    (rest : List OptimizingCompiler)
    (hq : s.input_queue = oc :: rest)
    (hpend : s.funcs oc.fid = FuncCode.inRecompileQueue)
    (hfail : oc.graph_status = CompileStatus.FAILED) :
    CompileNext s = Except.error RunErr.assertFailed
    ∧ ∀ s', CompileNext s ≠ Except.ok s' := by
  have hguard : IsInRecompileQueue (s.funcs oc.fid) = true := by
    simp [IsInRecompileQueue, hpend]
  have hmain : CompileNext s = Except.error RunErr.assertFailed := by
    unfold CompileNext
    rw [hq]
    have : (afterDequeue rest s).funcs = s.funcs := rfl
    simp [this, hguard, hfail]
  exact ⟨hmain, fun s' h => by rw [hmain] at h; exact Except.noConfusion h⟩

/-- A concrete state whose single queued job's opaque compile is
predetermined to report `FAILED`. -/
def failedJobState : OCTState :=
  { initialState with
      input_queue := [⟨3, CompileStatus.FAILED⟩]
      queue_length := 1
      input_queue_semaphore := 1 }

/-- Witness for C6 at a concrete failing-job state. -/
theorem compileNext_failed_status_fatal_witness :
    failedJobState.input_queue = (⟨3, CompileStatus.FAILED⟩ : OptimizingCompiler) :: []
    ∧ failedJobState.funcs 3 = FuncCode.inRecompileQueue
    ∧ (⟨3, CompileStatus.FAILED⟩ : OptimizingCompiler).graph_status = CompileStatus.FAILED
    ∧ (CompileNext failedJobState = Except.error RunErr.assertFailed
      ∧ ∀ s', CompileNext failedJobState ≠ Except.ok s') :=
  ⟨rfl, rfl, rfl,
   compileNext_failed_status_fatal failedJobState ⟨3, CompileStatus.FAILED⟩ [] rfl rfl rfl⟩

/-! ## Helper: inversion of a successful compile step -/

lemma CompileNext_ok_inv {s s' : OCTState} (h : CompileNext s = Except.ok s') :
    ∃ oc rest, s.input_queue = oc :: rest
      ∧ IsInRecompileQueue (s.funcs oc.fid) = true
      ∧ oc.graph_status ≠ CompileStatus.FAILED
      ∧ s' = MarkForInstallingRecompiledCode oc.fid (enqueueOutput oc (afterDequeue rest s)) := by
  unfold CompileNext at h
  cases hq : s.input_queue with
  | nil => rw [hq] at h; exact absurd h (by simp)
  | cons oc rest =>
    rw [hq] at h
    have hf1 : (afterDequeue rest s).funcs = s.funcs := rfl
    have hf2 : (enqueueOutput oc (afterDequeue rest s)).funcs = s.funcs := rfl
    simp only [hf1, hf2] at h
    by_cases h1 : IsInRecompileQueue (s.funcs oc.fid)
    · rw [h1] at h
      simp only [Bool.not_true, Bool.false_eq_true, if_false] at h
      by_cases h2 : oc.graph_status = CompileStatus.FAILED
      · rw [if_pos h2] at h
        exact absurd h (by simp)
      · rw [if_neg h2] at h
        exact ⟨oc, rest, rfl, h1, h2, ((Except.ok.injEq _ _).mp h).symm⟩
    · rw [Bool.not_eq_true] at h1
      rw [h1] at h
      simp at h

/-! ## Claim theorems about shutdown observation and the counter -/

/-- C7: once the shutdown flag is set and the input-queue semaphore has
been signalled, the worker's next wake observes the flag: it signals the
stop acknowledgement and leaves the loop (flag `true`), consuming one
semaphore signal but dequeuing nothing and compiling nothing — the input
queue, output queue and both logs are untouched. -/
theorem run_observes_stop_without_compiling (s : OCTState)
    (hstop : s.stop_thread = true) (hsig : 0 < s.input_queue_semaphore) :
    runIteration s = Except.ok
      ({ s with input_queue_semaphore := s.input_queue_semaphore - 1
                stop_semaphore := s.stop_semaphore + 1 }, true)
    ∧ (∀ t b, runIteration s = Except.ok (t, b) →
        b = true ∧ t.input_queue = s.input_queue ∧ t.output_queue = s.output_queue
        ∧ t.compiled_log = s.compiled_log ∧ t.installed_log = s.installed_log
        ∧ t.queue_length = s.queue_length
        ∧ t.stop_semaphore = s.stop_semaphore + 1) := by
  obtain ⟨iq, oq, ql, sem, ssem, st, fn, cl, il⟩ := s
  replace hstop : st = true := hstop
  replace hsig : 0 < sem := hsig
  subst hstop
  cases sem with
  | zero => exact absurd hsig (by omega)
  | succ n =>
    have hmain : runIteration (OCTState.mk iq oq ql (n + 1) ssem true fn cl il)
        = Except.ok (OCTState.mk iq oq ql n (ssem + 1) true fn cl il, true) := rfl
    refine ⟨hmain, fun t b h => ?_⟩
    rw [hmain] at h
    simp only [Except.ok.injEq, Prod.mk.injEq] at h
    obtain ⟨h1, h2⟩ := h
    subst h1
    subst h2
    exact ⟨rfl, rfl, rfl, rfl, rfl, rfl, rfl⟩

/-- A state with the shutdown flag set and one pending wake signal. -/
def stopFlaggedState : OCTState :=
  { oneJobState with stop_thread := true, input_queue_semaphore := 2 }

/-- Witness for C7 at a concrete flagged state. -/
theorem run_observes_stop_without_compiling_witness :
    stopFlaggedState.stop_thread = true
    ∧ 0 < stopFlaggedState.input_queue_semaphore
    ∧ (runIteration stopFlaggedState = Except.ok
        ({ stopFlaggedState with
              input_queue_semaphore := stopFlaggedState.input_queue_semaphore - 1
              stop_semaphore := stopFlaggedState.stop_semaphore + 1 }, true)
      ∧ (∀ t b, runIteration stopFlaggedState = Except.ok (t, b) →
          b = true ∧ t.input_queue = stopFlaggedState.input_queue
          ∧ t.output_queue = stopFlaggedState.output_queue
          ∧ t.compiled_log = stopFlaggedState.compiled_log
          ∧ t.installed_log = stopFlaggedState.installed_log
          ∧ t.queue_length = stopFlaggedState.queue_length
          ∧ t.stop_semaphore = stopFlaggedState.stop_semaphore + 1)) :=
  ⟨rfl, by decide,
   run_observes_stop_without_compiling stopFlaggedState rfl (by decide)⟩

/-- C8: the atomic counter `queue_length_` tracks the input queue:
`QueueForOptimization` increments it by exactly one together with the
enqueue, a successful `CompileNext` decrements it by exactly one after the
dequeue, `InstallOptimizedFunctions` and the worker's stop-observation
path never touch it, and each of these operations preserves the quiescent
identity between the counter and the input queue's length. -/
theorem queue_length_tracks_input_queue (oc : OptimizingCompiler) (s s' : OCTState) :
    (QueueForOptimization oc s).queue_length = s.queue_length + 1
    ∧ (CompileNext s = Except.ok s' → s'.queue_length = s.queue_length - 1)
    ∧ (InstallOptimizedFunctions s).queue_length = s.queue_length
    ∧ (s.stop_thread = true → ∀ t b, runIteration s = Except.ok (t, b) →
        t.queue_length = s.queue_length ∧ b = true)
    ∧ (s.queue_length = s.input_queue.length →
        (QueueForOptimization oc s).queue_length = (QueueForOptimization oc s).input_queue.length)
    ∧ (s.queue_length = s.input_queue.length → CompileNext s = Except.ok s' →
        s'.queue_length = s'.input_queue.length)
    ∧ (s.queue_length = s.input_queue.length →
        (InstallOptimizedFunctions s).queue_length
          = (InstallOptimizedFunctions s).input_queue.length) := by
  refine ⟨rfl, ?_, rfl, ?_, ?_, ?_, ?_⟩
  · intro h
    obtain ⟨oc0, rest, _, _, _, hs'⟩ := CompileNext_ok_inv h
    rw [hs']
    rfl
  · intro hstop t b h
    obtain ⟨iq, oq, ql, sem, ssem, st, fn, cl, il⟩ := s
    replace hstop : st = true := hstop
    subst hstop
    cases sem with
    | zero =>
      rw [show runIteration (OCTState.mk iq oq ql 0 ssem true fn cl il)
          = Except.error RunErr.wouldBlock from rfl] at h
      exact absurd h (by simp)
    | succ n =>
      rw [show runIteration (OCTState.mk iq oq ql (n + 1) ssem true fn cl il)
          = Except.ok (OCTState.mk iq oq ql n (ssem + 1) true fn cl il, true) from rfl] at h
      simp only [Except.ok.injEq, Prod.mk.injEq] at h
      obtain ⟨h1, h2⟩ := h
      subst h1
      subst h2
      exact ⟨rfl, rfl⟩
  · intro hq
    show s.queue_length + 1 = ((s.input_queue ++ [oc]).length : Int)
    rw [hq]
    simp only [List.length_append, List.length_cons, List.length_nil]
    push_cast
    omega
  · intro hq h
    obtain ⟨oc0, rest, hlist, _, _, hs'⟩ := CompileNext_ok_inv h
    rw [hs']
    show s.queue_length - 1 = (rest.length : Int)
    rw [hq, hlist]
    push_cast [List.length_cons]
    omega
  · intro hq
    rw [(install_frame s).1, (install_frame s).2.1]
    exact hq

/-- Witness for C8 at the one-job state and its compile successor. -/
theorem queue_length_tracks_input_queue_witness :
    (QueueForOptimization ⟨9, CompileStatus.SUCCEEDED⟩ oneJobState).queue_length
      = oneJobState.queue_length + 1
    ∧ (CompileNext oneJobState = Except.ok (MarkForInstallingRecompiledCode 7
          (enqueueOutput ⟨7, CompileStatus.SUCCEEDED⟩ (afterDequeue [] oneJobState))) →
        (MarkForInstallingRecompiledCode 7
          (enqueueOutput ⟨7, CompileStatus.SUCCEEDED⟩ (afterDequeue [] oneJobState))).queue_length
          = oneJobState.queue_length - 1)
    ∧ (InstallOptimizedFunctions oneJobState).queue_length = oneJobState.queue_length
    ∧ (oneJobState.stop_thread = true → ∀ t b, runIteration oneJobState = Except.ok (t, b) →
        t.queue_length = oneJobState.queue_length ∧ b = true)
    ∧ (oneJobState.queue_length = oneJobState.input_queue.length →
        (QueueForOptimization ⟨9, CompileStatus.SUCCEEDED⟩ oneJobState).queue_length
          = (QueueForOptimization ⟨9, CompileStatus.SUCCEEDED⟩ oneJobState).input_queue.length)
    ∧ (oneJobState.queue_length = oneJobState.input_queue.length →
        CompileNext oneJobState = Except.ok (MarkForInstallingRecompiledCode 7
          (enqueueOutput ⟨7, CompileStatus.SUCCEEDED⟩ (afterDequeue [] oneJobState))) →
        (MarkForInstallingRecompiledCode 7
          (enqueueOutput ⟨7, CompileStatus.SUCCEEDED⟩ (afterDequeue [] oneJobState))).queue_length
          = (MarkForInstallingRecompiledCode 7
              (enqueueOutput ⟨7, CompileStatus.SUCCEEDED⟩ (afterDequeue [] oneJobState))).input_queue.length)
    ∧ (oneJobState.queue_length = oneJobState.input_queue.length →
        (InstallOptimizedFunctions oneJobState).queue_length
          = (InstallOptimizedFunctions oneJobState).input_queue.length) :=
  queue_length_tracks_input_queue ⟨9, CompileStatus.SUCCEEDED⟩ oneJobState
    (MarkForInstallingRecompiledCode 7
      (enqueueOutput ⟨7, CompileStatus.SUCCEEDED⟩ (afterDequeue [] oneJobState)))

/-! ## Claim theorems about the shutdown sequencer -/

lemma stop_zero_delay_eq (s : OCTState) :
    Stop 0 s = Except.ok { s with stop_thread := true } := rfl

/-- C5: `Stop` in normal operation (diagnostic delay zero) returns right
after the worker acknowledges: jobs still in the input queue are neither
compiled nor installed, the input queue is left as it was (so non-empty),
and the pending-count stays strictly positive. -/
theorem stop_without_delay_abandons_queue (s : OCTState)
    (hinv : s.queue_length = s.input_queue.length)
    (hne : s.input_queue ≠ []) :
    ∃ s', Stop 0 s = Except.ok s'
      ∧ s'.input_queue = s.input_queue
      ∧ s'.output_queue = s.output_queue
      ∧ s'.compiled_log = s.compiled_log
      ∧ s'.installed_log = s.installed_log
      ∧ s'.input_queue ≠ []
      ∧ 0 < s'.queue_length := by
  refine ⟨{ s with stop_thread := true }, stop_zero_delay_eq s, rfl, rfl, rfl, rfl, hne, ?_⟩
  show 0 < s.queue_length
  rw [hinv]
  have : s.input_queue.length ≠ 0 := fun h => hne (List.length_eq_zero.mp h)
  omega

/-- Witness for C5 at the one-job state. -/
theorem stop_without_delay_abandons_queue_witness :
    oneJobState.queue_length = oneJobState.input_queue.length
    ∧ oneJobState.input_queue ≠ []
    ∧ (∃ s', Stop 0 oneJobState = Except.ok s'
        ∧ s'.input_queue = oneJobState.input_queue
        ∧ s'.output_queue = oneJobState.output_queue
        ∧ s'.compiled_log = oneJobState.compiled_log
        ∧ s'.installed_log = oneJobState.installed_log
        ∧ s'.input_queue ≠ []
        ∧ 0 < s'.queue_length) :=
  ⟨by decide, by decide,
   stop_without_delay_abandons_queue oneJobState (by decide) (by decide)⟩

/-! ## Helper lemmas for the synchronous drain fallback -/

lemma CompileNext_eq {s : OCTState} {oc : OptimizingCompiler} {rest : List OptimizingCompiler}
    (hq : s.input_queue = oc :: rest)
    (hpend : s.funcs oc.fid = FuncCode.inRecompileQueue)
    (hok : oc.graph_status ≠ CompileStatus.FAILED) :
    CompileNext s
      = Except.ok (MarkForInstallingRecompiledCode oc.fid (enqueueOutput oc (afterDequeue rest s))) := by
  have hguard : IsInRecompileQueue (s.funcs oc.fid) = true := by
    simp [IsInRecompileQueue, hpend]
  have hf1 : (afterDequeue rest s).funcs = s.funcs := rfl
  have hf2 : (enqueueOutput oc (afterDequeue rest s)).funcs = s.funcs := rfl
  unfold CompileNext
  rw [hq]
  simp only [hf1, hf2, hguard, Bool.not_true, Bool.false_eq_true, if_neg, not_false_eq_true,
    ite_false]
  rw [if_neg hok]

lemma stopDrainLoop_drains : ∀ (q : List OptimizingCompiler) (s : OCTState),
    s.input_queue = q →
    s.queue_length = q.length →
    s.output_queue = [] →
    (∀ oc ∈ q, s.funcs oc.fid = FuncCode.inRecompileQueue) →
    (∀ oc ∈ q, oc.graph_status ≠ CompileStatus.FAILED) →
    (q.map (fun oc => oc.fid)).Nodup →
    ∃ s', stopDrainLoop q.length s = Except.ok s'
      ∧ s'.input_queue = [] ∧ s'.output_queue = [] ∧ s'.queue_length = 0
      ∧ s'.installed_log = s.installed_log ++ q.map (fun oc => oc.fid)
      ∧ s'.compiled_log = s.compiled_log ++ q.map (fun oc => oc.fid) := by
  intro q
  induction q with
  | nil =>
    intro s hq hlen hout _ _ _
    have hlen0 : s.queue_length = 0 := by rw [hlen]; simp
    refine ⟨s, ?_, hq, hout, hlen0, by simp, by simp⟩
    show stopDrainLoop 0 s = Except.ok s
    unfold stopDrainLoop
    rw [hlen0]
    simp
  | cons oc rest ih =>
    intro s hq hlen hout hpend hok hnodup
    have hlen' : s.queue_length = (rest.length : Int) + 1 := by
      rw [hlen]; push_cast [List.length_cons]; ring
    have hguard : s.queue_length > 0 := by rw [hlen']; positivity
    have hcn : CompileNext s
        = Except.ok (MarkForInstallingRecompiledCode oc.fid (enqueueOutput oc (afterDequeue rest s))) :=
      CompileNext_eq hq (hpend oc (by simp)) (hok oc (by simp))
    have hfidne : ∀ oc' ∈ rest, oc'.fid ≠ oc.fid := by
      intro oc' hmem heq
      rw [List.map_cons, List.nodup_cons] at hnodup
      exact hnodup.1 (heq ▸ List.mem_map_of_mem (fun j => j.fid) hmem)
    set s1 := MarkForInstallingRecompiledCode oc.fid (enqueueOutput oc (afterDequeue rest s)) with hs1
    have hs1out : s1.output_queue = [oc] := by
      show s.output_queue ++ [oc] = [oc]
      rw [hout]; rfl
    have hs1funcs : s1.funcs = fun f => if f = oc.fid then FuncCode.markedForInstall else s.funcs f := rfl
    have helig : eligible s1.funcs oc = true := by
      rw [hs1funcs]
      simp [eligible, IsInRecompileQueue]
    set s2 := InstallOptimizedFunctions s1 with hs2
    have h2out : s2.output_queue = [] := by
      rw [hs2, install_output, hs1out, List.dropWhile_cons, helig]
      simp
    have htake : s1.output_queue.takeWhile (eligible s1.funcs) = [oc] := by
      rw [hs1out, List.takeWhile_cons, helig]
      simp
    have h2log : s2.installed_log = s.installed_log ++ [oc.fid] := by
      rw [hs2, install_log, htake]
      rfl
    have h2funcs : ∀ oc' ∈ rest, s2.funcs oc'.fid = FuncCode.inRecompileQueue := by
      intro oc' hmem
      rw [hs2, install_funcs, htake]
      have hne : oc'.fid ≠ oc.fid := hfidne oc' hmem
      rw [hs1funcs]
      simp only [List.map_cons, List.map_nil, List.mem_cons, List.not_mem_nil, or_false,
        hne, if_neg, if_false]
      exact hpend oc' (by simp [hmem])
    have h2in : s2.input_queue = rest := (install_frame s1).1
    have h2len : s2.queue_length = (rest.length : Int) := by
      have := (install_frame s1).2.1
      rw [hs2, this]
      show s.queue_length - 1 = (rest.length : Int)
      rw [hlen']
      ring
    have h2comp : s2.compiled_log = s.compiled_log ++ [oc.fid] := by
      rw [hs2, (install_frame s1).2.2.2.2.2]
      rfl
    obtain ⟨s', hrun, hin', hout', hlen0', hlog', hcomp'⟩ :=
      ih s2 h2in h2len h2out h2funcs (fun oc' hmem => hok oc' (by simp [hmem])) (by
        rw [List.map_cons, List.nodup_cons] at hnodup
        exact hnodup.2)
    refine ⟨s', ?_, hin', hout', hlen0', ?_, ?_⟩
    · show stopDrainLoop (oc :: rest).length s = Except.ok s'
      rw [List.length_cons]
      unfold stopDrainLoop
      rw [if_pos hguard, hcn]
      exact hrun
    · rw [hlog', h2log]
      simp
    · rw [hcomp', h2comp]
      simp

/-- C4: `Stop` with the diagnostic delay flag nonzero and N vetted jobs
queued (worker parked, empty output queue, counter consistent, distinct
target functions all still pending) finishes synchronously: when `Stop`
returns, the input queue is drained, the pending-count is zero, and all N
jobs have been compiled and installed, in order, exactly once. -/
theorem stop_with_delay_drains_and_installs_all (d : Nat) (s : OCTState)
    (hd : d ≠ 0)
    (hout : s.output_queue = [])
    (hlen : s.queue_length = s.input_queue.length)
    (hpend : ∀ oc ∈ s.input_queue, s.funcs oc.fid = FuncCode.inRecompileQueue)
    (hok : ∀ oc ∈ s.input_queue, oc.graph_status ≠ CompileStatus.FAILED)
    (hnodup : (s.input_queue.map (fun oc => oc.fid)).Nodup) :
    ∃ s', Stop d s = Except.ok s'
      ∧ s'.input_queue = []
      ∧ s'.output_queue = []
      ∧ s'.queue_length = 0
      ∧ s'.installed_log = s.installed_log ++ s.input_queue.map (fun oc => oc.fid)
      ∧ s'.compiled_log = s.compiled_log ++ s.input_queue.map (fun oc => oc.fid) := by
  obtain ⟨iq, oq, ql, sem, ssem, st, fn, cl, il⟩ := s
  replace hout : oq = [] := hout
  subst hout
  replace hlen : ql = (iq.length : Int) := hlen
  replace hpend : ∀ oc ∈ iq, fn oc.fid = FuncCode.inRecompileQueue := hpend
  replace hok : ∀ oc ∈ iq, oc.graph_status ≠ CompileStatus.FAILED := hok
  replace hnodup : (iq.map (fun oc => oc.fid)).Nodup := hnodup
  have hstopeq : Stop d (OCTState.mk iq [] ql sem ssem st fn cl il)
      = if d ≠ 0 then stopDrainLoop iq.length (OCTState.mk iq [] ql sem ssem true fn cl il)
        else Except.ok (OCTState.mk iq [] ql sem ssem true fn cl il) := rfl
  rw [hstopeq, if_pos hd]
  exact stopDrainLoop_drains iq (OCTState.mk iq [] ql sem ssem true fn cl il)
    rfl hlen rfl hpend hok hnodup

/-- A concrete state with two vetted jobs queued and the worker parked. -/
def twoJobState : OCTState :=
  { initialState with
      input_queue := [⟨1, CompileStatus.SUCCEEDED⟩, ⟨2, CompileStatus.SUCCEEDED⟩]
      queue_length := 2
      input_queue_semaphore := 2 }

/-- Witness for C4: delay flag 1, two jobs queued; `Stop` drains both. -/
theorem stop_with_delay_drains_and_installs_all_witness :
    (1 : Nat) ≠ 0
    ∧ twoJobState.output_queue = []
    ∧ twoJobState.queue_length = twoJobState.input_queue.length
    ∧ (∀ oc ∈ twoJobState.input_queue, twoJobState.funcs oc.fid = FuncCode.inRecompileQueue)
    ∧ (∀ oc ∈ twoJobState.input_queue, oc.graph_status ≠ CompileStatus.FAILED)
    ∧ (twoJobState.input_queue.map (fun oc => oc.fid)).Nodup
    ∧ (∃ s', Stop 1 twoJobState = Except.ok s'
        ∧ s'.input_queue = []
        ∧ s'.output_queue = []
        ∧ s'.queue_length = 0
        ∧ s'.installed_log = twoJobState.installed_log ++ twoJobState.input_queue.map (fun oc => oc.fid)
        ∧ s'.compiled_log = twoJobState.compiled_log ++ twoJobState.input_queue.map (fun oc => oc.fid)) :=
  ⟨by decide, rfl, by decide, by decide, by decide, by decide,
   stop_with_delay_drains_and_installs_all 1 twoJobState (by decide) rfl (by decide)
     (by decide) (by decide) (by decide)⟩

/-! ## Interleavings of the two threads

A run of the system is a sequence of whole-operation commands: an enqueue
by the execution thread (`QueueForOptimization`), one worker-loop
iteration by the compiler thread, or one `InstallOptimizedFunctions` call
by the execution thread.  A worker iteration whose semaphore wait would
block leaves the state unchanged (the thread simply has not returned from
`Wait`). -/

inductive Cmd where
  | queue (oc : OptimizingCompiler)
  | workerIter
  | install
deriving DecidableEq, Repr

/-- Execute one command of the protocol. -/
def step (s : OCTState) (c : Cmd) : OCTState :=
  match c with
  | Cmd.queue oc => QueueForOptimization oc s
  | Cmd.workerIter =>
    match runIteration s with
    | Except.ok r => r.1
    | Except.error _ => s
  | Cmd.install => InstallOptimizedFunctions s

/-- Execute a sequence of commands from a starting state. -/
def runCmds (s : OCTState) (cs : List Cmd) : OCTState := cs.foldl step s

/-- The jobs enqueued by a command sequence, in enqueue (FIFO) order. -/
def queuedJobs : List Cmd → List OptimizingCompiler
  | [] => []
  | Cmd.queue oc :: cs => oc :: queuedJobs cs
  | Cmd.workerIter :: cs => queuedJobs cs
  | Cmd.install :: cs => queuedJobs cs

/-- Well-formed workload: the queued jobs target pairwise distinct
functions and each passed its pre-queueing feasibility check, so its
opaque compile does not report `FAILED` (spec §6). -/
def WfJobs (l : List OptimizingCompiler) : Prop :=
  (l.map (fun oc => oc.fid)).Nodup
  ∧ ∀ oc ∈ l, oc.graph_status ≠ CompileStatus.FAILED

/-- The protocol invariant tying a reachable state to the list of jobs
enqueued so far: the jobs split into installed, published and still-queued
segments in FIFO order; the counter and the input semaphore agree with
the input queue; published jobs are marked ready, untouched function
records still read pending. -/
structure Coherent (queued : List OptimizingCompiler) (s : OCTState) : Prop where
  split : ∃ done outp, queued = done ++ outp ++ s.input_queue
      ∧ s.installed_log = done.map (fun oc => oc.fid)
      ∧ s.output_queue = outp
      ∧ s.compiled_log = (done ++ outp).map (fun oc => oc.fid)
  qlen : s.queue_length = s.input_queue.length
  sem : s.input_queue_semaphore = s.input_queue.length
  nostop : s.stop_thread = false
  funcs_out : ∀ oc ∈ s.output_queue, s.funcs oc.fid = FuncCode.markedForInstall
  funcs_fresh : ∀ f, f ∉ s.compiled_log → s.funcs f = FuncCode.inRecompileQueue

lemma WfJobs_append_left {l1 l2 : List OptimizingCompiler} (h : WfJobs (l1 ++ l2)) :
    WfJobs l1 := by
  obtain ⟨hnodup, hok⟩ := h
  rw [List.map_append] at hnodup
  exact ⟨hnodup.of_append_left, fun oc hmem => hok oc (List.mem_append_left l2 hmem)⟩

lemma coherent_init : Coherent [] initialState := by
  refine ⟨⟨[], [], by simp [initialState], by simp [initialState], by simp [initialState],
    by simp [initialState]⟩, by simp [initialState], by simp [initialState], rfl,
    by simp [initialState], fun f _ => rfl⟩

lemma coherent_queue {queued : List OptimizingCompiler} {s : OCTState}
    (h : Coherent queued s) (oc : OptimizingCompiler) :
    Coherent (queued ++ [oc]) (QueueForOptimization oc s) := by
  obtain ⟨⟨done, outp, hsplit, hinst, hout, hcomp⟩, hqlen, hsem, hnostop, hfout, hffresh⟩ := h
  refine ⟨⟨done, outp, ?_, hinst, hout, hcomp⟩, ?_, ?_, hnostop, hfout, hffresh⟩
  · show queued ++ [oc] = done ++ outp ++ (s.input_queue ++ [oc])
    rw [hsplit]
    simp [List.append_assoc]
  · show s.queue_length + 1 = ((s.input_queue ++ [oc]).length : Int)
    rw [hqlen]
    simp only [List.length_append, List.length_cons, List.length_nil]
    push_cast
    omega
  · show s.input_queue_semaphore + 1 = (s.input_queue ++ [oc]).length
    rw [hsem]
    simp

lemma takeWhile_all {α : Type} (p : α → Bool) :
    ∀ l : List α, (∀ a ∈ l, p a = true) → l.takeWhile p = l ∧ l.dropWhile p = [] := by
  intro l
  induction l with
  | nil => intro _; simp
  | cons a l ih =>
    intro hall
    have ha : p a = true := hall a (by simp)
    obtain ⟨iht, ihd⟩ := ih (fun b hb => hall b (by simp [hb]))
    rw [List.takeWhile_cons, List.dropWhile_cons, ha]
    simp [iht, ihd]

lemma coherent_install {queued : List OptimizingCompiler} {s : OCTState}
    (h : Coherent queued s) :
    Coherent queued (InstallOptimizedFunctions s)
    ∧ (InstallOptimizedFunctions s).input_queue = s.input_queue
    ∧ (InstallOptimizedFunctions s).output_queue = [] := by
  obtain ⟨⟨done, outp, hsplit, hinst, hout, hcomp⟩, hqlen, hsem, hnostop, hfout, hffresh⟩ := h
  have hall : ∀ oc ∈ s.output_queue, eligible s.funcs oc = true := by
    intro oc hmem
    have := hfout oc hmem
    simp [eligible, IsInRecompileQueue, this]
  obtain ⟨htake, hdrop⟩ := takeWhile_all (eligible s.funcs) s.output_queue hall
  have houtq : (InstallOptimizedFunctions s).output_queue = [] := by
    rw [install_output, hdrop]
  have hinstq : (InstallOptimizedFunctions s).installed_log
      = (done ++ outp).map (fun oc => oc.fid) := by
    rw [install_log, htake, hinst, hout, List.map_append]
  have hfr := install_frame s
  refine ⟨⟨⟨done ++ outp, [], ?_, hinstq, houtq, ?_⟩, ?_, ?_, ?_, ?_, ?_⟩, hfr.1, houtq⟩
  · rw [hfr.1]
    rw [hsplit]
    simp
  · rw [hfr.2.2.2.2.2, hcomp]
    simp
  · rw [hfr.1, hfr.2.1]
    exact hqlen
  · rw [hfr.1, hfr.2.2.1]
    exact hsem
  · rw [hfr.2.2.2.2.1]
    exact hnostop
  · rw [houtq]
    intro oc hmem
    exact absurd hmem (List.not_mem_nil oc)
  · intro f hf
    rw [hfr.2.2.2.2.2] at hf
    rw [install_funcs, htake, hout]
    have hnotin : f ∉ outp.map (fun oc => oc.fid) := by
      intro hin
      apply hf
      rw [hcomp, List.map_append]
      exact List.mem_append_right _ hin
    rw [if_neg hnotin]
    exact hffresh f hf

lemma coherent_worker {queued : List OptimizingCompiler} {s : OCTState}
    (h : Coherent queued s) (hwf : WfJobs queued) :
    Coherent queued (step s Cmd.workerIter)
    ∧ (step s Cmd.workerIter).input_queue = s.input_queue.tail := by
  obtain ⟨⟨done, outp, hsplit, hinst, hout, hcomp⟩, hqlen, hsem, hnostop, hfout, hffresh⟩ := h
  obtain ⟨iq, oq, ql, sem, ssem, st, fn, cl, il⟩ := s
  replace hnostop : st = false := hnostop
  subst hnostop
  replace hsplit : queued = done ++ outp ++ iq := hsplit
  replace hinst : il = done.map (fun oc => oc.fid) := hinst
  replace hout : oq = outp := hout
  replace hcomp : cl = (done ++ outp).map (fun oc => oc.fid) := hcomp
  replace hqlen : ql = (iq.length : Int) := hqlen
  replace hsem : sem = iq.length := hsem
  replace hfout : ∀ oc ∈ oq, fn oc.fid = FuncCode.markedForInstall := hfout
  replace hffresh : ∀ f, f ∉ cl → fn f = FuncCode.inRecompileQueue := hffresh
  cases iq with
  | nil =>
    replace hsem : sem = 0 := by simpa using hsem
    subst hsem
    have hstep : step (OCTState.mk [] oq ql 0 ssem false fn cl il) Cmd.workerIter
        = OCTState.mk [] oq ql 0 ssem false fn cl il := rfl
    rw [hstep]
    exact ⟨⟨⟨done, outp, hsplit, hinst, hout, hcomp⟩, hqlen, by simp, rfl, hfout, hffresh⟩, rfl⟩
  | cons oc rest =>
    replace hsem : sem = rest.length + 1 := by simpa using hsem
    subst hsem
    have hoc_mem : oc ∈ queued := by rw [hsplit]; simp
    have hfid_notin : oc.fid ∉ cl := by
      rw [hcomp]
      intro hmem
      obtain ⟨hnodup, _⟩ := hwf
      rw [hsplit] at hnodup
      rw [List.map_append, List.nodup_append] at hnodup
      exact hnodup.2.2 hmem (by simp)
    have hpend : fn oc.fid = FuncCode.inRecompileQueue := hffresh _ hfid_notin
    have hok2 : oc.graph_status ≠ CompileStatus.FAILED := hwf.2 oc hoc_mem
    have hcn : CompileNext (OCTState.mk (oc :: rest) oq ql rest.length ssem false fn cl il)
        = Except.ok (MarkForInstallingRecompiledCode oc.fid (enqueueOutput oc
            (afterDequeue rest (OCTState.mk (oc :: rest) oq ql rest.length ssem false fn cl il)))) :=
      CompileNext_eq rfl hpend hok2
    have hri : runIteration (OCTState.mk (oc :: rest) oq ql (rest.length + 1) ssem false fn cl il)
        = match CompileNext (OCTState.mk (oc :: rest) oq ql rest.length ssem false fn cl il) with
          | Except.error e => Except.error e
          | Except.ok s2 => Except.ok (s2, false) := rfl
    have hri2 : runIteration (OCTState.mk (oc :: rest) oq ql (rest.length + 1) ssem false fn cl il)
        = Except.ok (MarkForInstallingRecompiledCode oc.fid (enqueueOutput oc
            (afterDequeue rest (OCTState.mk (oc :: rest) oq ql rest.length ssem false fn cl il))),
          false) := by
      rw [hri, hcn]
    have hstep : step (OCTState.mk (oc :: rest) oq ql (rest.length + 1) ssem false fn cl il)
          Cmd.workerIter
        = MarkForInstallingRecompiledCode oc.fid (enqueueOutput oc
            (afterDequeue rest (OCTState.mk (oc :: rest) oq ql rest.length ssem false fn cl il))) := by
      unfold step
      rw [hri2]
    rw [hstep]
    refine ⟨⟨⟨done, outp ++ [oc], ?_, ?_, ?_, ?_⟩, ?_, rfl, rfl, ?_, ?_⟩, rfl⟩
    · show queued = done ++ (outp ++ [oc]) ++ rest
      rw [hsplit]
      simp
    · exact hinst
    · show oq ++ [oc] = outp ++ [oc]
      rw [hout]
    · show cl ++ [oc.fid] = (done ++ (outp ++ [oc])).map (fun j => j.fid)
      rw [hcomp]
      simp
    · show ql - 1 = (rest.length : Int)
      rw [hqlen]
      push_cast [List.length_cons]
      ring
    · intro oc' hmem
      replace hmem : oc' ∈ oq ++ [oc] := hmem
      show (if oc'.fid = oc.fid then FuncCode.markedForInstall else fn oc'.fid)
        = FuncCode.markedForInstall
      by_cases hf : oc'.fid = oc.fid
      · rw [if_pos hf]
      · rw [if_neg hf]
        rcases List.mem_append.mp hmem with hmo | hmo
        · exact hfout oc' hmo
        · exact absurd (by simpa using hmo) (fun heq => hf (by rw [heq]))
    · intro f hf
      replace hf : f ∉ cl ++ [oc.fid] := hf
      rw [List.mem_append] at hf
      push_neg at hf
      obtain ⟨hf1, hf2⟩ := hf
      have hfne : f ≠ oc.fid := by simpa using hf2
      show (if f = oc.fid then FuncCode.markedForInstall else fn f) = FuncCode.inRecompileQueue
      rw [if_neg hfne]
      exact hffresh f hf1

lemma runCmds_append (s : OCTState) (cs ds : List Cmd) :
    runCmds s (cs ++ ds) = runCmds (runCmds s cs) ds :=
  List.foldl_append step s cs ds

lemma runCmds_coherent : ∀ (cs : List Cmd) (queued : List OptimizingCompiler) (s : OCTState),
    Coherent queued s → WfJobs (queued ++ queuedJobs cs) →
    Coherent (queued ++ queuedJobs cs) (runCmds s cs) := by
  intro cs
  induction cs with
  | nil =>
    intro queued s h _
    simpa [runCmds, queuedJobs] using h
  | cons c cs ih =>
    intro queued s h hwf
    cases c with
    | queue oc =>
      replace hwf : WfJobs (queued ++ (oc :: queuedJobs cs)) := hwf
      have hlist : queued ++ oc :: queuedJobs cs = (queued ++ [oc]) ++ queuedJobs cs := by simp
      show Coherent (queued ++ (oc :: queuedJobs cs)) (runCmds (QueueForOptimization oc s) cs)
      rw [hlist]
      exact ih (queued ++ [oc]) _ (coherent_queue h oc) (hlist ▸ hwf)
    | workerIter =>
      replace hwf : WfJobs (queued ++ queuedJobs cs) := hwf
      show Coherent (queued ++ queuedJobs cs) (runCmds (step s Cmd.workerIter) cs)
      exact ih queued _ (coherent_worker h (WfJobs_append_left hwf)).1 hwf
    | install =>
      replace hwf : WfJobs (queued ++ queuedJobs cs) := hwf
      show Coherent (queued ++ queuedJobs cs) (runCmds (InstallOptimizedFunctions s) cs)
      exact ih queued _ (coherent_install h).1 hwf

lemma coherent_workers : ∀ (n : Nat) (queued : List OptimizingCompiler) (s : OCTState),
    Coherent queued s → WfJobs queued → s.input_queue.length = n →
    Coherent queued (runCmds s (List.replicate n Cmd.workerIter))
    ∧ (runCmds s (List.replicate n Cmd.workerIter)).input_queue = [] := by
  intro n
  induction n with
  | zero =>
    intro queued s h _ hlen
    rw [List.replicate_zero]
    exact ⟨h, List.length_eq_zero.mp hlen⟩
  | succ n ih =>
    intro queued s h hwf hlen
    obtain ⟨hcoh, htail⟩ := coherent_worker h hwf
    rw [List.replicate_succ]
    show Coherent queued (runCmds (step s Cmd.workerIter) (List.replicate n Cmd.workerIter)) ∧ _
    apply ih queued _ hcoh hwf
    rw [htail, List.length_tail, hlen]
    omega

/-- C3: for every interleaving of enqueues, worker iterations and install
calls starting from the empty coordinator (jobs vetted and targeting
pairwise distinct functions), the installed log is at all times a prefix
of the enqueue order — no job is installed out of FIFO order, twice, or
before being enqueued — and after a fair continuation (letting the worker
drain the input queue, then one install pass) every enqueued job has been
compiled exactly once and installed exactly once, in FIFO order. -/
theorem every_job_compiled_and_installed_exactly_once_fifo (cs : List Cmd)
    (hnodup : ((queuedJobs cs).map (fun oc => oc.fid)).Nodup)
    (hok : ∀ oc ∈ queuedJobs cs, oc.graph_status ≠ CompileStatus.FAILED) :
    (∃ k, (runCmds initialState cs).installed_log
        = ((queuedJobs cs).map (fun oc => oc.fid)).take k)
    ∧ (runCmds initialState (cs ++ (List.replicate (runCmds initialState cs).input_queue.length
          Cmd.workerIter ++ [Cmd.install]))).installed_log
        = (queuedJobs cs).map (fun oc => oc.fid)
    ∧ (runCmds initialState (cs ++ (List.replicate (runCmds initialState cs).input_queue.length
          Cmd.workerIter ++ [Cmd.install]))).compiled_log
        = (queuedJobs cs).map (fun oc => oc.fid) := by
  have hwf : WfJobs (queuedJobs cs) := ⟨hnodup, hok⟩
  have hmid : Coherent (queuedJobs cs) (runCmds initialState cs) := by
    have := runCmds_coherent cs [] initialState coherent_init (by simpa using hwf)
    simpa using this
  refine ⟨?_, ?_⟩
  · obtain ⟨dn, op, hsp, hinst, _, _⟩ := hmid.split
    refine ⟨(dn.map (fun oc => oc.fid)).length, ?_⟩
    rw [hinst, hsp, List.map_append, List.map_append, List.append_assoc]
    exact (List.take_left _ _).symm
  · obtain ⟨hw1, hw2⟩ := coherent_workers (runCmds initialState cs).input_queue.length
      (queuedJobs cs) (runCmds initialState cs) hmid hwf rfl
    obtain ⟨hi1, hi2, hi3⟩ := coherent_install hw1
    have hfinal : runCmds initialState
          (cs ++ (List.replicate (runCmds initialState cs).input_queue.length
            Cmd.workerIter ++ [Cmd.install]))
        = InstallOptimizedFunctions (runCmds (runCmds initialState cs)
            (List.replicate (runCmds initialState cs).input_queue.length Cmd.workerIter)) := by
      rw [runCmds_append, runCmds_append]
      rfl
    rw [hfinal]
    obtain ⟨dn, op, hsp, hinst, hout, hcomp⟩ := hi1.split
    have hop : op = [] := by rw [← hout]; exact hi3
    subst hop
    rw [hi2, hw2] at hsp
    replace hsp : queuedJobs cs = dn := by simpa using hsp
    constructor
    · rw [hinst, hsp]
    · rw [hcomp, hsp]
      simp

/-- The §8 concrete scenario: enqueue jobs for functions 1, 2, 3 in order
with no worker activity in between. -/
def enqueueABC : List Cmd :=
  [Cmd.queue ⟨1, CompileStatus.SUCCEEDED⟩,
   Cmd.queue ⟨2, CompileStatus.SUCCEEDED⟩,
   Cmd.queue ⟨3, CompileStatus.SUCCEEDED⟩]

/-- Witness for C3 at the A, B, C scenario. -/
theorem every_job_compiled_and_installed_exactly_once_fifo_witness :
    ((queuedJobs enqueueABC).map (fun oc => oc.fid)).Nodup
    ∧ (∀ oc ∈ queuedJobs enqueueABC, oc.graph_status ≠ CompileStatus.FAILED)
    ∧ ((∃ k, (runCmds initialState enqueueABC).installed_log
          = ((queuedJobs enqueueABC).map (fun oc => oc.fid)).take k)
      ∧ (runCmds initialState (enqueueABC
            ++ (List.replicate (runCmds initialState enqueueABC).input_queue.length
              Cmd.workerIter ++ [Cmd.install]))).installed_log
          = (queuedJobs enqueueABC).map (fun oc => oc.fid)
      ∧ (runCmds initialState (enqueueABC
            ++ (List.replicate (runCmds initialState enqueueABC).input_queue.length
              Cmd.workerIter ++ [Cmd.install]))).compiled_log
          = (queuedJobs enqueueABC).map (fun oc => oc.fid)) :=
  ⟨by decide, by decide,
   every_job_compiled_and_installed_exactly_once_fifo enqueueABC (by decide) (by decide)⟩
